import Mathlib

namespace Pauli

/-!
Verification of the pauli validator-monitoring engine.

This file shallowly embeds the parts of the Go source that the
specification claims talk about:

* the scheduler event generator `Scheduler.NextEvents`
  (internal/monitor, scheduler part),
* the reward/penalty job processing of the Monitor
  (`processStatusJob`, `processDutiesJob`, `processRewardsJob`),
* the Beacon HTTP client retry loops (`doRequest`, `doRequestWithBody`),
* the exponential backoff generator (pkg/backoff),
* the JSON integer decoders (`Uint64Str.UnmarshalJSON`,
  `Int64Str.UnmarshalJSON` in internal/beacon/types.go),
* the single-row save operations of the store writer
  (internal/storage/repository.go).

Machine integers are modelled as `Nat` / `Int`; 64-bit wrap-around is
made explicit through `wrapInt64` where the Go code performs `int64`
arithmetic. Effectful Go code is modelled by passing the outcomes of
its environment (HTTP responses, write successes, the wall clock, the
random jitter sample) as explicit arguments.
-/

/-! ## Scheduler event generation (internal/monitor, Scheduler) -/

/-- Constant SlotsPerEpoch = 32 from the monitor package. -/
def SlotsPerEpoch : Nat := 32

/-- Mirror of the Go `EventType` enumeration. -/
inductive EventType where
  | slotPoll
  | epochBoundary
  | epochFinalized
deriving DecidableEq, Repr

/-- Mirror of the Go `ScheduleEvent` structure. -/
structure ScheduleEvent where
  slot : Nat
  epoch : Nat
  etype : EventType
  validators : List Nat
deriving DecidableEq, Repr

/-- The mutable scheduler state touched by `NextEvents`:
`lastEpoch` and `lastFinalEpoch` of the Go `Scheduler`. -/
structure SchedState where
  lastEpoch : Nat
  lastFinalEpoch : Nat
deriving DecidableEq, Repr

/-- The condition of the epoch-boundary branch of `NextEvents`:
`slot%SlotsPerEpoch == 0 && epoch != s.lastEpoch`. -/
def boundaryFires (st : SchedState) (slot : Nat) : Bool :=
  slot % SlotsPerEpoch == 0 && slot / SlotsPerEpoch != st.lastEpoch

/-- The epoch-boundary events appended by `NextEvents` (zero or one). -/
def boundaryEvents (validators : List Nat) (st : SchedState) (slot : Nat) :
    List ScheduleEvent :=
  if boundaryFires st slot then
    [ScheduleEvent.mk slot (slot / SlotsPerEpoch + 1) .epochBoundary validators]
  else []

/-- The state after the epoch-boundary branch of `NextEvents`. -/
def boundaryState (st : SchedState) (slot : Nat) : SchedState :=
  if boundaryFires st slot then { st with lastEpoch := slot / SlotsPerEpoch }
  else st

/-- The finalization events appended by `NextEvents`: one per epoch of
`lastFinalEpoch+1 .. finalizedEpoch`, in ascending order, and none
when the finality lookup failed or did not advance. -/
def finalizedEvents (validators : List Nat) (st : SchedState) (slot : Nat)
    (finality : Option Nat) : List ScheduleEvent :=
  match finality with
  | none => []
  | some finalizedEpoch =>
    if finalizedEpoch > st.lastFinalEpoch then
      (List.range (finalizedEpoch - st.lastFinalEpoch)).map
        (fun k => ScheduleEvent.mk slot (st.lastFinalEpoch + 1 + k)
          .epochFinalized validators)
    else []

/-- The state after the finalization branch of `NextEvents`. -/
def finalizedState (st : SchedState) (finality : Option Nat) : SchedState :=
  match finality with
  | none => st
  | some finalizedEpoch =>
    if finalizedEpoch > st.lastFinalEpoch then
      { st with lastFinalEpoch := finalizedEpoch }
    else st

/-- Embedding of `Scheduler.NextEvents`. The finality-checkpoint call
is modelled by the argument `finality`: `none` means the HTTP call
failed (the code then only logs a warning), `some f` means it returned
finalized epoch `f`. The function returns the emitted events, the Go
error value (always `none`: the Go code ends in `return events, nil`),
and the updated scheduler state. -/
def nextEvents (validators : List Nat) (st : SchedState) (slot : Nat)
    (finality : Option Nat) :
    List ScheduleEvent × Option String × SchedState :=
  let epoch := slot / SlotsPerEpoch
  let st1 := boundaryState st slot
  ([ScheduleEvent.mk slot epoch .slotPoll validators]
     ++ boundaryEvents validators st slot
     ++ finalizedEvents validators st1 slot finality,
   none,
   finalizedState st1 finality)

/-- The events of a tick. -/
def nextEventsList (validators : List Nat) (st : SchedState) (slot : Nat)
    (finality : Option Nat) : List ScheduleEvent :=
  (nextEvents validators st slot finality).1

/-- The state after a tick. -/
def nextEventsState (validators : List Nat) (st : SchedState) (slot : Nat)
    (finality : Option Nat) : SchedState :=
  (nextEvents validators st slot finality).2.2

/-- Runs a sequence of ticks, each given by a slot and the outcome of
the finality lookup, threading the scheduler state. -/
def runTicks (validators : List Nat) (st : SchedState)
    (ticks : List (Nat × Option Nat)) : SchedState :=
  ticks.foldl (fun s t => nextEventsState validators s t.1 t.2) st

/-! ## Storage row types (internal/storage) and Monitor job processing -/

/-- Mirror of the Go `monitor.JobType` enumeration. -/
inductive JobType where
  | status
  | duties
  | rewards
deriving DecidableEq, Repr

/-- Mirror of the Go `monitor.Job` structure. -/
structure Job where
  validatorIndex : Nat
  slot : Nat
  epoch : Nat
  jtype : JobType
deriving DecidableEq, Repr

/-- Mirror of `storage.ValidatorSnapshot`. Timestamps are modelled as
`Nat`; the Go zero `time.Time` is modelled as `0`. -/
structure StValidatorSnapshot where
  validatorIndex : Nat
  slot : Nat
  status : String
  balance : Nat
  effectiveBalance : Nat
  timestamp : Nat
deriving DecidableEq, Repr

/-- Mirror of `storage.AttestationDuty`. -/
structure StAttestationDuty where
  validatorIndex : Nat
  epoch : Nat
  slot : Nat
  committeeIndex : Nat
  committeePosition : Nat
  timestamp : Nat
deriving DecidableEq, Repr

/-- Mirror of `storage.AttestationReward`. -/
structure StAttestationReward where
  validatorIndex : Nat
  epoch : Nat
  headReward : Int
  sourceReward : Int
  targetReward : Int
  totalReward : Int
  timestamp : Nat
deriving DecidableEq, Repr

/-- Mirror of `storage.ValidatorPenalty`. -/
structure StValidatorPenalty where
  validatorIndex : Nat
  epoch : Nat
  slot : Nat
  penaltyType : String
  penaltyGwei : Int
  timestamp : Nat
deriving DecidableEq, Repr

/-- Mirror of the constant storage.PenaltyTypeAttestationMiss. -/
def PenaltyTypeAttestationMiss : String := "attestation_miss"

/-- Wrap-around of Go `int64` arithmetic: the representative of
`x mod 2^64` in `[-2^63, 2^63)`. -/
def wrapInt64 (x : Int) : Int := (x + 2 ^ 63) % 2 ^ 64 - 2 ^ 63

/-- The decoded fields of a `beacon.Validator` that `processStatusJob`
reads. -/
structure ValidatorInfo where
  status : String
  balance : Nat
  effectiveBalance : Nat
deriving DecidableEq, Repr

/-- The decoded fields of a `beacon.AttesterDuty` entry that
`processDutiesJob` reads. -/
structure DutyEntry where
  validatorIndex : Nat
  slot : Nat
  committeeIndex : Nat
  validatorCommitteeIndex : Nat
deriving DecidableEq, Repr

/-- The decoded fields of one entry of `total_rewards` that
`processRewardsJob` reads (`beacon.AttestationReward`): each of
`head`, `source`, `target` is a decoded Go `int64`. -/
structure RewardEntry where
  validatorIndex : Nat
  head : Int
  source : Int
  target : Int
deriving DecidableEq, Repr

/-- Embedding of `Monitor.processStatusJob`. The Beacon fetch and the
store write are effects, modelled by the arguments `fetch` (outcome of
`client.GetValidator`) and `writeOk` (whether
`repo.SaveValidatorSnapshot` succeeded). Returns the Go return value
and the error log lines. A failed write is logged but the job still
returns the snapshot with a nil error. -/
def processStatusJob (job : Job) (now : Nat)
    (fetch : Except String ValidatorInfo) (writeOk : Bool) :
    Except String StValidatorSnapshot × List String :=
  match fetch with
  | .error e => (.error e, [])
  | .ok v =>
    let snapshot : StValidatorSnapshot :=
      { validatorIndex := job.validatorIndex
        slot := job.slot
        status := v.status
        balance := v.balance
        effectiveBalance := v.effectiveBalance
        timestamp := now }
    (.ok snapshot,
     if writeOk then [] else ["Failed to save validator snapshot"])

/-- Embedding of `Monitor.processDutiesJob`. -/
def processDutiesJob (job : Job) (now : Nat)
    (fetch : Except String (List DutyEntry)) (writeOk : Bool) :
    Except String (List StAttestationDuty) × List String :=
  match fetch with
  | .error e => (.error e, [])
  | .ok data =>
    let duties : List StAttestationDuty := data.map (fun d =>
      { validatorIndex := d.validatorIndex
        epoch := job.epoch
        slot := d.slot
        committeeIndex := d.committeeIndex
        committeePosition := d.validatorCommitteeIndex
        timestamp := now })
    (.ok duties,
     if writeOk then [] else ["Failed to save attestation duties"])

/-- The `storage.AttestationReward` constructed by `processRewardsJob`
for one entry: `totalReward` is the Go `int64` sum
`r.Head.Int64() + r.Source.Int64() + r.Target.Int64()` (wrap-around of
the chained additions coincides with a single wrap of the exact sum). -/
def mkReward (job : Job) (now : Nat) (r : RewardEntry) :
    StAttestationReward :=
  { validatorIndex := r.validatorIndex
    epoch := job.epoch
    headReward := r.head
    sourceReward := r.source
    targetReward := r.target
    totalReward := wrapInt64 (r.head + r.source + r.target)
    timestamp := now }

/-- The `storage.ValidatorPenalty` constructed by `processRewardsJob`
when `totalReward < 0`; `PenaltyGwei = -totalReward` in Go `int64`
arithmetic. -/
def mkPenalty (job : Job) (now : Nat) (r : RewardEntry) :
    Option StValidatorPenalty :=
  if wrapInt64 (r.head + r.source + r.target) < 0 then
    some { validatorIndex := r.validatorIndex
           epoch := job.epoch
           slot := job.slot
           penaltyType := PenaltyTypeAttestationMiss
           penaltyGwei := wrapInt64 (-wrapInt64 (r.head + r.source + r.target))
           timestamp := now }
  else none

/-- Outcome of `Monitor.processRewardsJob`: the Go return value, the
rows submitted to `SaveAttestationRewards` and `SaveValidatorPenalty`,
and the error log lines. -/
structure RewardsOutcome where
  result : Except String (List StAttestationReward)
  persistedRewards : List StAttestationReward
  persistedPenalties : List StValidatorPenalty
  logs : List String
deriving Repr

/-- Embedding of `Monitor.processRewardsJob`. `fetch` is the outcome of
`client.GetAttestationRewards` (its `total_rewards` list);
`rewardsWriteOk` and `penaltyWriteOk` are the outcomes of the batch
reward write and of the per-penalty writes. Write failures are logged
and do not change the returned value. -/
def processRewardsJob (job : Job) (now : Nat)
    (fetch : Except String (List RewardEntry))
    (rewardsWriteOk : Bool) (penaltyWriteOk : Nat → Bool) :
    RewardsOutcome :=
  match fetch with
  | .error e => ⟨.error e, [], [], []⟩
  | .ok entries =>
    let rewards := entries.map (mkReward job now)
    let penalties := entries.filterMap (mkPenalty job now)
    ⟨.ok rewards, rewards, penalties,
      (if rewardsWriteOk then [] else ["Failed to save attestation rewards"])
        ++ (List.range penalties.length).filterMap (fun i =>
            if penaltyWriteOk i then none
            else some "Failed to save validator penalty")⟩

/-- The range hypotheses on one decoded rewards entry: each component
is a Go `int64` value and, as the spec assumes for per-epoch values,
the exact total stays strictly inside the `int64` range. -/
def entryTotalsInRange (r : RewardEntry) : Prop :=
  -(2 ^ 63) ≤ r.head ∧ r.head < 2 ^ 63
    ∧ -(2 ^ 63) ≤ r.source ∧ r.source < 2 ^ 63
    ∧ -(2 ^ 63) ≤ r.target ∧ r.target < 2 ^ 63
    ∧ -(2 ^ 63) < r.head + r.source + r.target
    ∧ r.head + r.source + r.target < 2 ^ 63

instance (r : RewardEntry) : Decidable (entryTotalsInRange r) := by
  unfold entryTotalsInRange
  infer_instance

/-! ## Store writer single-row saves (internal/storage/repository.go) -/

/-- Embedding of `Repository.SaveValidatorSnapshot`: the row whose
fields are bound into the INSERT statement. If the supplied timestamp
is the zero value it is replaced by the current UTC wall-clock time
`now`, taken just before the insert; every other field is written
exactly as supplied. -/
def saveValidatorSnapshotRow (now : Nat) (s : StValidatorSnapshot) :
    StValidatorSnapshot :=
  if s.timestamp = 0 then { s with timestamp := now } else s

/-- Embedding of `Repository.SaveAttestationDuty` (row written). -/
def saveAttestationDutyRow (now : Nat) (d : StAttestationDuty) :
    StAttestationDuty :=
  if d.timestamp = 0 then { d with timestamp := now } else d

/-- Embedding of `Repository.SaveAttestationReward` (row written). -/
def saveAttestationRewardRow (now : Nat) (r : StAttestationReward) :
    StAttestationReward :=
  if r.timestamp = 0 then { r with timestamp := now } else r

/-- Embedding of `Repository.SaveValidatorPenalty` (row written). -/
def saveValidatorPenaltyRow (now : Nat) (p : StValidatorPenalty) :
    StValidatorPenalty :=
  if p.timestamp = 0 then { p with timestamp := now } else p

/-! ## Beacon client retry loops (internal/beacon, `doRequest` and
`doRequestWithBody`) -/

/-- The outcome of one HTTP attempt as seen by the client: either the
transport layer failed (`c.httpClient.Do` returned an error), or a
response with a status code, a body, and whether the JSON decode of
the body succeeds. -/
inductive Attempt where
  | transport
  | response (status : Nat) (body : String) (decodeOk : Bool)
deriving DecidableEq, Repr

/-- Embedding of backoff.ShouldRetry: true exactly for HTTP 429 and 503. -/
def shouldRetry (status : Nat) : Bool := status == 429 || status == 503

/-- Whether an attempt outcome makes `doRequest` retry: a
transport-level error or a retryable HTTP status. -/
def retryableAttempt : Attempt → Bool
  | .transport => true
  | .response status _ _ => shouldRetry status

/-- The value `doRequest` returns. -/
inductive GoResult where
  | ok
  | transportFailed
  | retryableExhausted (status : Nat) (body : String)
  | httpError (status : Nat) (body : String)
  | decodeError
deriving DecidableEq, Repr

/-- One iteration of the `doRequest` retry loop at attempt index `i`
with `r` retries remaining (`r = maxRetries - i`); `w` counts the
backoff waits taken so far. Returns the Go outcome, the number of
attempts made in total, and the number of backoff waits taken.
Mirrors internal/beacon `doRequest`: a transport error or a status in
{429, 503} retries after a backoff wait while attempts remain; any
other non-200 status fails immediately with the status and body; a 200
response is decoded. -/
def doRequestLoop (att : Nat → Attempt) : Nat → Nat → Nat →
    GoResult × Nat × Nat
  | i, w, r =>
    match att i with
    | .transport =>
      match r with
      | 0 => (.transportFailed, i + 1, w)
      | r' + 1 => doRequestLoop att (i + 1) (w + 1) r'
    | .response status body decodeOk =>
      if shouldRetry status then
        match r with
        | 0 => (.retryableExhausted status body, i + 1, w)
        | r' + 1 => doRequestLoop att (i + 1) (w + 1) r'
      else if status ≠ 200 then (.httpError status body, i + 1, w)
      else if decodeOk then (.ok, i + 1, w)
      else (.decodeError, i + 1, w)

/-- Embedding of `Client.doRequest` (used by every GET): runs the retry
loop with `maxRetries` retries remaining after the first attempt.
Returns (outcome, attempts made, backoff waits taken). -/
def doRequestGo (maxRetries : Nat) (att : Nat → Attempt) :
    GoResult × Nat × Nat :=
  doRequestLoop att 0 0 maxRetries

/-- Embedding of `Client.doRequestWithBody` (used by every POST): a
single attempt, no retry and no backoff wait, for any outcome. -/
def doRequestWithBodyGo (att0 : Attempt) : GoResult × Nat × Nat :=
  match att0 with
  | .transport => (.transportFailed, 1, 0)
  | .response status body decodeOk =>
    if status ≠ 200 then (.httpError status body, 1, 0)
    else if decodeOk then (.ok, 1, 0)
    else (.decodeError, 1, 0)

/-! ## Exponential backoff with jitter (pkg/backoff) -/

/-- Mirror of `backoff.Config`. The Go float64 fields are modelled as
rationals; durations are in nanoseconds. -/
structure BackoffConfig where
  initialDelay : ℚ
  maxDelay : ℚ
  multiplier : ℚ
  jitterFactor : ℚ
deriving DecidableEq, Repr

/-- Mirror of `backoff.Backoff`. -/
structure Backoff where
  cfg : BackoffConfig
  attempts : Nat
deriving DecidableEq, Repr

/-- Embedding of backoff.Reset. -/
def Backoff.reset (b : Backoff) : Backoff := { b with attempts := 0 }

/-- Embedding of `backoff.NextDelay`. The random sample
`u = rand.Float64()` lies in `[0, 1)` and is passed explicitly. At
attempt 0 the initial delay is returned with no jitter; otherwise the
nominal delay `initialDelay * multiplier ^ attempts` is multiplied by
`1 + (2u - 1) * jitterFactor` and capped at `maxDelay`; the attempt
counter advances in both cases. -/
def Backoff.nextDelay (b : Backoff) (u : ℚ) : ℚ × Backoff :=
  if b.attempts = 0 then
    (b.cfg.initialDelay, { b with attempts := b.attempts + 1 })
  else
    let delay := b.cfg.initialDelay * b.cfg.multiplier ^ b.attempts
    let jitter := 1 + (u * 2 - 1) * b.cfg.jitterFactor
    let delay := delay * jitter
    let delay := if delay > b.cfg.maxDelay then b.cfg.maxDelay else delay
    (delay, { b with attempts := b.attempts + 1 })

/-! ## JSON integer decoders (internal/beacon/types.go,
`Uint64Str.UnmarshalJSON` and `Int64Str.UnmarshalJSON`) -/

/-- The double-quote character. -/
def dquote : Char := Char.ofNat 34

/-- The value of an ASCII decimal digit, as checked by
`strconv.ParseUint`. -/
def digitVal (c : Char) : Option Nat :=
  if 48 ≤ c.toNat ∧ c.toNat ≤ 57 then some (c.toNat - 48) else none

/-- Left-to-right accumulation of decimal digits
(`strconv.ParseUint` main loop); fails on any non-digit character. -/
def parseDigitsAux : List Char → Nat → Option Nat
  | [], acc => some acc
  | c :: cs, acc =>
    match digitVal c with
    | some d => parseDigitsAux cs (acc * 10 + d)
    | none => none

/-- Embedding of `strconv.ParseUint(s, 10, 64)`: a nonempty string of
decimal digits whose value fits in 64 bits; no sign prefix is
permitted. -/
def parseUint64 (s : List Char) : Option Nat :=
  if s.isEmpty then none
  else
    match parseDigitsAux s 0 with
    | some v => if v < 2 ^ 64 then some v else none
    | none => none

/-- The digit-and-range part of `strconv.ParseInt(s, 10, 64)` after
the sign prefix has been consumed: `neg` records a `-` sign; the
magnitude must be a nonempty digit string and the signed value must
lie in `[-2^63, 2^63 - 1]`. -/
def parseInt64Core (neg : Bool) (digits : List Char) : Option Int :=
  if digits.isEmpty then none
  else
    match parseDigitsAux digits 0 with
    | none => none
    | some un =>
      if 2 ^ 64 ≤ un then none
      else if neg = false ∧ 2 ^ 63 ≤ un then none
      else if neg = true ∧ 2 ^ 63 < un then none
      else if neg then some (-(un : Int)) else some (un : Int)

/-- Embedding of `strconv.ParseInt(s, 10, 64)`: an optional `+` or `-`
sign, then a nonempty digit string; accepted range is
`[-2^63, 2^63 - 1]`. -/
def parseInt64 (s : List Char) : Option Int :=
  match s with
  | [] => none
  | c :: rest =>
    if c = Char.ofNat 43 then parseInt64Core false rest
    else if c = Char.ofNat 45 then parseInt64Core true rest
    else parseInt64Core false (c :: rest)

/-- The quote-stripping prologue shared by both `UnmarshalJSON`
methods: when the token has length at least 2 and both its first and
last byte are `"` the token is replaced by `s[1 : len(s)-1]`. -/
def stripQuotes (s : List Char) : List Char :=
  if 2 ≤ s.length ∧ s.head? = some dquote ∧ s.getLast? = some dquote
  then (s.drop 1).dropLast else s

/-- Embedding of `Uint64Str.UnmarshalJSON`: strip surrounding quotes
if present, then `strconv.ParseUint(s, 10, 64)`. -/
def uint64StrUnmarshal (data : List Char) : Option Nat :=
  parseUint64 (stripQuotes data)

/-- Embedding of `Int64Str.UnmarshalJSON`: strip surrounding quotes if
present, then `strconv.ParseInt(s, 10, 64)`. -/
def int64StrUnmarshal (data : List Char) : Option Int :=
  parseInt64 (stripQuotes data)

/-- The JSON string encoding of a token: the token wrapped in double
quotes. -/
def quoteWrap (s : List Char) : List Char := dquote :: (s ++ [dquote])

/-- The decimal digit characters of `n`, most significant first
(fuel-based so that it evaluates in the kernel). -/
def natCharsAux : Nat → Nat → List Char → List Char
  | 0, _, acc => acc
  | fuel + 1, n, acc =>
    if n < 10 then Char.ofNat (48 + n % 10) :: acc
    else natCharsAux fuel (n / 10) (Char.ofNat (48 + n % 10) :: acc)

/-- The canonical unquoted decimal token of a natural number. -/
def natChars (n : Nat) : List Char := natCharsAux (n + 1) n []

/-- The canonical unquoted decimal token of an integer. -/
def intChars (i : Int) : List Char :=
  if i < 0 then Char.ofNat 45 :: natChars i.natAbs else natChars i.toNat

/-- A nonempty all-digit token. -/
def isDigits (s : List Char) : Prop :=
  s ≠ [] ∧ ∀ c ∈ s, (digitVal c).isSome = true

/-- A base-10 signed-integer token as accepted by
`strconv.ParseInt`: a nonempty digit string with an optional leading
`+` or `-` sign. -/
def isIntToken (s : List Char) : Prop :=
  isDigits s
    ∨ ∃ rest, (s = Char.ofNat 43 :: rest ∨ s = Char.ofNat 45 :: rest)
        ∧ isDigits rest

/-! ## Lemmas and claim theorems -/

lemma boundaryState_lastFinalEpoch (st : SchedState) (slot : Nat) :
    (boundaryState st slot).lastFinalEpoch = st.lastFinalEpoch := by
  unfold boundaryState
  split <;> rfl

lemma finalizedState_lastFinalEpoch_mono (st : SchedState)
    (finality : Option Nat) :
    st.lastFinalEpoch ≤ (finalizedState st finality).lastFinalEpoch := by
  unfold finalizedState
  cases finality with
  | none => exact le_refl _
  | some f =>
    dsimp only
    by_cases h : f > st.lastFinalEpoch
    · simp only [h, if_true]
      exact Nat.le_of_lt h
    · simp [h]

lemma nextEventsState_lastFinalEpoch_mono (validators : List Nat)
    (st : SchedState) (slot : Nat) (finality : Option Nat) :
    st.lastFinalEpoch ≤
      (nextEventsState validators st slot finality).lastFinalEpoch := by
  unfold nextEventsState nextEvents
  calc st.lastFinalEpoch
      = (boundaryState st slot).lastFinalEpoch :=
        (boundaryState_lastFinalEpoch st slot).symm
    _ ≤ _ := finalizedState_lastFinalEpoch_mono ..

lemma runTicks_lastFinalEpoch_mono (validators : List Nat)
    (st : SchedState) (ticks : List (Nat × Option Nat)) :
    st.lastFinalEpoch ≤ (runTicks validators st ticks).lastFinalEpoch := by
  induction ticks generalizing st with
  | nil => simp [runTicks]
  | cons t ts ih =>
    calc st.lastFinalEpoch
        ≤ (nextEventsState validators st t.1 t.2).lastFinalEpoch :=
          nextEventsState_lastFinalEpoch_mono ..
      _ ≤ _ := by
          simpa [runTicks] using ih (nextEventsState validators st t.1 t.2)

lemma filter_finalized_nextEventsList (validators : List Nat)
    (st : SchedState) (slot : Nat) (finality : Option Nat) :
    (nextEventsList validators st slot finality).filter
        (fun ev => ev.etype == EventType.epochFinalized)
      = finalizedEvents validators (boundaryState st slot) slot finality := by
  unfold nextEventsList nextEvents
  simp only [List.filter_append, List.filter_cons]
  have hb : (boundaryEvents validators st slot).filter
      (fun ev => ev.etype == EventType.epochFinalized) = [] := by
    unfold boundaryEvents
    split <;> simp
  have hfin : (finalizedEvents validators (boundaryState st slot) slot
      finality).filter (fun ev => ev.etype == EventType.epochFinalized)
      = finalizedEvents validators (boundaryState st slot) slot finality := by
    unfold finalizedEvents
    cases finality with
    | none => simp
    | some f =>
      dsimp only
      split
      · rw [List.filter_map]
        simp [Function.comp_def]
      · simp
  simp [hb, hfin]

/-- Claim C3: on a tick where the finality lookup succeeds with
finalized epoch `f` strictly greater than `lastFinalEpoch`,
`NextEvents` emits exactly one `EPOCH_FINALIZED` event per epoch in
the half-open range `(lastFinalEpoch, f]`, in ascending order with no
epoch skipped, and then sets `lastFinalEpoch := f`; consequently
`lastFinalEpoch` is monotonically non-decreasing over any sequence of
ticks. -/
theorem C3_finalization_catchup (validators : List Nat) (st : SchedState)
    (slot f : Nat) (hf : st.lastFinalEpoch < f) :
    ((nextEventsList validators st slot (some f)).filter
        (fun ev => ev.etype == EventType.epochFinalized)
      = (List.range (f - st.lastFinalEpoch)).map
          (fun k => ScheduleEvent.mk slot (st.lastFinalEpoch + 1 + k)
            EventType.epochFinalized validators))
    ∧ (nextEventsState validators st slot (some f)).lastFinalEpoch = f
    ∧ ∀ (st0 : SchedState) (ticks : List (Nat × Option Nat)),
        st0.lastFinalEpoch ≤ (runTicks validators st0 ticks).lastFinalEpoch := by
  refine ⟨?_, ?_, fun st0 ticks => runTicks_lastFinalEpoch_mono ..⟩
  · rw [filter_finalized_nextEventsList]
    unfold finalizedEvents
    rw [boundaryState_lastFinalEpoch]
    simp [hf]
  · unfold nextEventsState nextEvents finalizedState
    have h := boundaryState_lastFinalEpoch st slot
    simp only [h]
    simp [hf]

/-- Witness for C3 at the spec scenario: `lastFinalEpoch = 10`,
finality lookup returns epoch 13 at slot 448; three finalization
events for epochs 11, 12, 13 are emitted in order and the state
becomes 13. -/
theorem C3_finalization_catchup_witness :
    (SchedState.mk 0 10).lastFinalEpoch < 13
    ∧ (((nextEventsList [100] (SchedState.mk 0 10) 448 (some 13)).filter
          (fun ev => ev.etype == EventType.epochFinalized)
        = (List.range 3).map
            (fun k => ScheduleEvent.mk 448 (11 + k)
              EventType.epochFinalized [100]))
      ∧ (nextEventsState [100] (SchedState.mk 0 10) 448 (some 13)).lastFinalEpoch
          = 13
      ∧ ∀ (st0 : SchedState) (ticks : List (Nat × Option Nat)),
          st0.lastFinalEpoch ≤ (runTicks [100] st0 ticks).lastFinalEpoch) :=
  ⟨by decide, C3_finalization_catchup [100] (SchedState.mk 0 10) 448 13
    (by decide)⟩

/-- Claim C4: each call of `NextEvents` at slot `s` with epoch
`e = s / 32` returns a list beginning with a `SLOT_POLL` event
carrying slot `s`, epoch `e` and the full validator set; an
`EPOCH_BOUNDARY` event is emitted iff `s % 32 = 0` and `e` differs
from `lastEpoch`, in which case `lastEpoch` is set to `e` and the
event carries epoch `e + 1`; the order within the tick is `SLOT_POLL`,
then `EPOCH_BOUNDARY`, then the `EPOCH_FINALIZED` events. -/
theorem C4_tick_event_structure (validators : List Nat) (st : SchedState)
    (slot : Nat) (finality : Option Nat) :
    (∃ tail,
        nextEventsList validators st slot finality
          = ScheduleEvent.mk slot (slot / SlotsPerEpoch)
              EventType.slotPoll validators
            :: ((if slot % SlotsPerEpoch = 0 ∧ slot / SlotsPerEpoch ≠ st.lastEpoch
                 then [ScheduleEvent.mk slot (slot / SlotsPerEpoch + 1)
                        EventType.epochBoundary validators]
                 else []) ++ tail)
        ∧ ∀ ev ∈ tail, ev.etype = EventType.epochFinalized)
    ∧ ((∃ ev ∈ nextEventsList validators st slot finality,
          ev.etype = EventType.epochBoundary)
        ↔ (slot % SlotsPerEpoch = 0 ∧ slot / SlotsPerEpoch ≠ st.lastEpoch))
    ∧ (nextEventsState validators st slot finality).lastEpoch
        = (if slot % SlotsPerEpoch = 0 ∧ slot / SlotsPerEpoch ≠ st.lastEpoch
           then slot / SlotsPerEpoch else st.lastEpoch) := by
  have hbf : boundaryFires st slot
      = decide (slot % SlotsPerEpoch = 0 ∧ slot / SlotsPerEpoch ≠ st.lastEpoch) := by
    unfold boundaryFires
    by_cases h1 : slot % SlotsPerEpoch = 0 <;>
      by_cases h2 : slot / SlotsPerEpoch = st.lastEpoch <;> simp [h1, h2]
  have hballs : ∀ ev ∈ finalizedEvents validators (boundaryState st slot)
      slot finality, ev.etype = EventType.epochFinalized := by
    intro ev hev
    unfold finalizedEvents at hev
    cases finality with
    | none => simp at hev
    | some f =>
      dsimp only at hev
      split at hev
      · simp only [List.mem_map, List.mem_range] at hev
        obtain ⟨k, _, rfl⟩ := hev
        rfl
      · simp at hev
  have hlist : nextEventsList validators st slot finality
      = ScheduleEvent.mk slot (slot / SlotsPerEpoch)
          EventType.slotPoll validators
        :: ((if slot % SlotsPerEpoch = 0 ∧ slot / SlotsPerEpoch ≠ st.lastEpoch
             then [ScheduleEvent.mk slot (slot / SlotsPerEpoch + 1)
                    EventType.epochBoundary validators]
             else [])
          ++ finalizedEvents validators (boundaryState st slot) slot finality) := by
    unfold nextEventsList nextEvents boundaryEvents
    rw [hbf]
    by_cases h : slot % SlotsPerEpoch = 0 ∧ slot / SlotsPerEpoch ≠ st.lastEpoch <;>
      simp [h]
  refine ⟨⟨finalizedEvents validators (boundaryState st slot) slot finality,
      hlist, hballs⟩, ?_, ?_⟩
  · constructor
    · rintro ⟨ev, hev, het⟩
      rw [hlist] at hev
      by_cases h : slot % SlotsPerEpoch = 0 ∧ slot / SlotsPerEpoch ≠ st.lastEpoch
      · exact h
      · exfalso
        rw [if_neg h, List.nil_append] at hev
        rcases List.mem_cons.mp hev with rfl | hev
        · simp at het
        · rw [hballs ev hev] at het
          exact absurd het (by decide)
    · intro h
      refine ⟨ScheduleEvent.mk slot (slot / SlotsPerEpoch + 1)
        EventType.epochBoundary validators, ?_, rfl⟩
      rw [hlist, if_pos h]
      simp
  · unfold nextEventsState nextEvents
    have h1 : (finalizedState (boundaryState st slot) finality).lastEpoch
        = (boundaryState st slot).lastEpoch := by
      unfold finalizedState
      cases finality with
      | none => rfl
      | some f =>
        dsimp only
        split <;> rfl
    dsimp only
    rw [h1]
    unfold boundaryState
    rw [hbf]
    by_cases h : slot % SlotsPerEpoch = 0 ∧ slot / SlotsPerEpoch ≠ st.lastEpoch <;>
      simp [h]

/-- Claim C7: when the finality lookup of a tick fails, `NextEvents`
still returns a nil error, the list still contains the `SLOT_POLL`
event (and the `EPOCH_BOUNDARY` event exactly when due), no
`EPOCH_FINALIZED` event is emitted, and `lastFinalEpoch` is left
unchanged. -/
theorem C7_finality_failure_recoverable (validators : List Nat)
    (st : SchedState) (slot : Nat) :
    (nextEvents validators st slot none).2.1 = none
    ∧ nextEventsList validators st slot none
        = ScheduleEvent.mk slot (slot / SlotsPerEpoch)
            EventType.slotPoll validators
          :: (if slot % SlotsPerEpoch = 0 ∧ slot / SlotsPerEpoch ≠ st.lastEpoch
              then [ScheduleEvent.mk slot (slot / SlotsPerEpoch + 1)
                     EventType.epochBoundary validators]
              else [])
    ∧ (∀ ev ∈ nextEventsList validators st slot none,
        ev.etype ≠ EventType.epochFinalized)
    ∧ (nextEventsState validators st slot none).lastFinalEpoch
        = st.lastFinalEpoch := by
  have hbf : boundaryFires st slot
      = decide (slot % SlotsPerEpoch = 0 ∧ slot / SlotsPerEpoch ≠ st.lastEpoch) := by
    unfold boundaryFires
    by_cases h1 : slot % SlotsPerEpoch = 0 <;>
      by_cases h2 : slot / SlotsPerEpoch = st.lastEpoch <;> simp [h1, h2]
  have hev : nextEventsList validators st slot none
      = ScheduleEvent.mk slot (slot / SlotsPerEpoch)
          EventType.slotPoll validators
        :: (if slot % SlotsPerEpoch = 0 ∧ slot / SlotsPerEpoch ≠ st.lastEpoch
            then [ScheduleEvent.mk slot (slot / SlotsPerEpoch + 1)
                   EventType.epochBoundary validators]
            else []) := by
    unfold nextEventsList nextEvents boundaryEvents finalizedEvents
    rw [hbf]
    by_cases h : slot % SlotsPerEpoch = 0 ∧ slot / SlotsPerEpoch ≠ st.lastEpoch <;>
      simp [h]
  refine ⟨rfl, hev, ?_, ?_⟩
  · intro ev hmem
    rw [hev] at hmem
    rcases List.mem_cons.mp hmem with rfl | hmem
    · simp
    · by_cases h : slot % SlotsPerEpoch = 0 ∧ slot / SlotsPerEpoch ≠ st.lastEpoch
      · rw [if_pos h] at hmem
        rcases List.mem_singleton.mp hmem with rfl
        simp
      · rw [if_neg h] at hmem
        simp at hmem
  · unfold nextEventsState nextEvents finalizedState
    exact boundaryState_lastFinalEpoch st slot

lemma wrapInt64_eq_self {x : Int} (h1 : -(2 ^ 63) ≤ x) (h2 : x < 2 ^ 63) :
    wrapInt64 x = x := by
  unfold wrapInt64
  have hmod : (x + 2 ^ 63) % 2 ^ 64 = x + 2 ^ 63 :=
    Int.emod_eq_of_lt (by omega) (by omega)
  omega

lemma mkReward_total_eq {job : Job} {now : Nat} {r : RewardEntry}
    (h : entryTotalsInRange r) :
    (mkReward job now r).totalReward = r.head + r.source + r.target := by
  obtain ⟨_, _, _, _, _, _, h7, h8⟩ := h
  unfold mkReward
  exact wrapInt64_eq_self (le_of_lt h7) h8

lemma mkPenalty_eq {job : Job} {now : Nat} {r : RewardEntry}
    (h : entryTotalsInRange r) :
    mkPenalty job now r
      = (if r.head + r.source + r.target < 0 then
          some ⟨r.validatorIndex, job.epoch, job.slot,
            PenaltyTypeAttestationMiss,
            -(r.head + r.source + r.target), now⟩
         else none) := by
  obtain ⟨_, _, _, _, _, _, h7, h8⟩ := h
  unfold mkPenalty
  rw [wrapInt64_eq_self (le_of_lt h7) h8]
  by_cases hneg : r.head + r.source + r.target < 0
  · rw [if_pos hneg, if_pos hneg,
      wrapInt64_eq_self (by omega) (by omega)]
  · rw [if_neg hneg, if_neg hneg]

/-- Claim C1: for a REWARDS job whose fetch succeeds, the processor
persists, for each returned total-rewards entry, an
`AttestationReward` whose total equals `head + source + target`, and
it constructs and persists a `ValidatorPenalty` exactly for the
entries whose total is negative, with `penalty_type =
"attestation_miss"`, `penalty_gwei = -total`, the same validator index
and epoch as the reward, and `slot = job.slot`. -/
theorem C1_rewards_and_penalties (job : Job) (now : Nat)
    (entries : List RewardEntry) (rewardsWriteOk : Bool)
    (penaltyWriteOk : Nat → Bool)
    (hrange : ∀ r ∈ entries, entryTotalsInRange r) :
    (processRewardsJob job now (.ok entries) rewardsWriteOk
        penaltyWriteOk).persistedRewards
      = entries.map (fun r =>
          ⟨r.validatorIndex, job.epoch, r.head, r.source, r.target,
           r.head + r.source + r.target, now⟩)
    ∧ (processRewardsJob job now (.ok entries) rewardsWriteOk
        penaltyWriteOk).persistedPenalties
      = entries.filterMap (fun r =>
          if r.head + r.source + r.target < 0 then
            some ⟨r.validatorIndex, job.epoch, job.slot,
              PenaltyTypeAttestationMiss,
              -(r.head + r.source + r.target), now⟩
          else none)
    ∧ (∀ p ∈ (processRewardsJob job now (.ok entries) rewardsWriteOk
          penaltyWriteOk).persistedPenalties,
        ∃ rw ∈ (processRewardsJob job now (.ok entries) rewardsWriteOk
          penaltyWriteOk).persistedRewards,
          rw.totalReward < 0
          ∧ p.validatorIndex = rw.validatorIndex ∧ p.epoch = rw.epoch
          ∧ p.penaltyGwei = -rw.totalReward
          ∧ p.penaltyType = PenaltyTypeAttestationMiss
          ∧ p.slot = job.slot ∧ p.timestamp = now)
    ∧ (∀ rw ∈ (processRewardsJob job now (.ok entries) rewardsWriteOk
          penaltyWriteOk).persistedRewards,
        rw.totalReward < 0 →
        ∃ p ∈ (processRewardsJob job now (.ok entries) rewardsWriteOk
          penaltyWriteOk).persistedPenalties,
          p.validatorIndex = rw.validatorIndex ∧ p.epoch = rw.epoch
          ∧ p.penaltyGwei = -rw.totalReward
          ∧ p.penaltyType = PenaltyTypeAttestationMiss
          ∧ p.slot = job.slot) := by
  have hrew : (processRewardsJob job now (.ok entries) rewardsWriteOk
      penaltyWriteOk).persistedRewards = entries.map (mkReward job now) := rfl
  have hpen : (processRewardsJob job now (.ok entries) rewardsWriteOk
      penaltyWriteOk).persistedPenalties
      = entries.filterMap (mkPenalty job now) := rfl
  have hrew2 : entries.map (mkReward job now)
      = entries.map (fun r =>
          ⟨r.validatorIndex, job.epoch, r.head, r.source, r.target,
           r.head + r.source + r.target, now⟩) := by
    apply List.map_congr_left
    intro r hr
    have h := hrange r hr
    have ht := @mkReward_total_eq job now r h
    unfold mkReward at ht ⊢
    simp only at ht
    rw [ht]
  have hpen2 : entries.filterMap (mkPenalty job now)
      = entries.filterMap (fun r =>
          if r.head + r.source + r.target < 0 then
            some ⟨r.validatorIndex, job.epoch, job.slot,
              PenaltyTypeAttestationMiss,
              -(r.head + r.source + r.target), now⟩
          else none) := by
    apply List.filterMap_congr
    intro r hr
    exact mkPenalty_eq (hrange r hr)
  refine ⟨hrew.trans hrew2, hpen.trans hpen2, ?_, ?_⟩
  · intro p hp
    rw [hpen, hpen2] at hp
    rw [List.mem_filterMap] at hp
    obtain ⟨r, hr, hpr⟩ := hp
    by_cases hneg : r.head + r.source + r.target < 0
    · rw [if_pos hneg, Option.some_inj] at hpr
      subst hpr
      refine ⟨⟨r.validatorIndex, job.epoch, r.head, r.source, r.target,
        r.head + r.source + r.target, now⟩, ?_, hneg, rfl, rfl, rfl, rfl,
        rfl, rfl⟩
      rw [hrew, hrew2]
      exact List.mem_map_of_mem _ hr
    · rw [if_neg hneg] at hpr
      cases hpr
  · intro rw hrw hneg
    rw [hrew, hrew2] at hrw
    rw [List.mem_map] at hrw
    obtain ⟨r, hr, hrr⟩ := hrw
    subst hrr
    simp only at hneg
    refine ⟨⟨r.validatorIndex, job.epoch, job.slot,
      PenaltyTypeAttestationMiss, -(r.head + r.source + r.target), now⟩,
      ?_, rfl, rfl, rfl, rfl, rfl⟩
    rw [hpen, hpen2, List.mem_filterMap]
    exact ⟨r, hr, by rw [if_pos hneg]⟩

/-- Witness for C1 at the spec scenario: epoch 50, slot `job.slot`,
one entry `head = -1000`, `source = -500`, `target = 200`, so
`total = -1300` and one penalty of 1300 gwei is persisted. -/
theorem C1_rewards_and_penalties_witness :
    (∀ r ∈ [RewardEntry.mk 100 (-1000) (-500) 200], entryTotalsInRange r)
    ∧ (processRewardsJob (Job.mk 0 1600 50 .rewards) 7
        (.ok [RewardEntry.mk 100 (-1000) (-500) 200]) true
        (fun _ => true)).persistedRewards
      = [⟨100, 50, -1000, -500, 200, -1300, 7⟩]
    ∧ (processRewardsJob (Job.mk 0 1600 50 .rewards) 7
        (.ok [RewardEntry.mk 100 (-1000) (-500) 200]) true
        (fun _ => true)).persistedPenalties
      = [⟨100, 50, 1600, PenaltyTypeAttestationMiss, 1300, 7⟩] := by
  have h := C1_rewards_and_penalties (Job.mk 0 1600 50 .rewards) 7
    [RewardEntry.mk 100 (-1000) (-500) 200] true (fun _ => true)
    (by decide)
  exact ⟨by decide, by rw [h.1]; decide, by rw [h.2.1]; decide⟩

/-- Claim C8: for every job kind whose Beacon fetch succeeds, `Process`
returns the constructed objects with a nil error regardless of whether
the store writes issued during the job fail: the returned value is the
same for any write outcome and is always `.ok` of the constructed
data. -/
theorem C8_write_failures_do_not_fail_jobs :
    (∀ (job : Job) (now : Nat) (v : ValidatorInfo) (writeOk : Bool),
      (processStatusJob job now (.ok v) writeOk).1
        = .ok ⟨job.validatorIndex, job.slot, v.status, v.balance,
            v.effectiveBalance, now⟩)
    ∧ (∀ (job : Job) (now : Nat) (data : List DutyEntry) (writeOk : Bool),
      (processDutiesJob job now (.ok data) writeOk).1
        = .ok (data.map (fun d =>
            ⟨d.validatorIndex, job.epoch, d.slot, d.committeeIndex,
             d.validatorCommitteeIndex, now⟩)))
    ∧ (∀ (job : Job) (now : Nat) (entries : List RewardEntry)
        (w1 w2 : Bool) (p1 p2 : Nat → Bool),
      (processRewardsJob job now (.ok entries) w1 p1).result
        = .ok (entries.map (mkReward job now))
      ∧ (processRewardsJob job now (.ok entries) w1 p1).result
        = (processRewardsJob job now (.ok entries) w2 p2).result) :=
  ⟨fun _ _ _ _ => rfl, fun _ _ _ _ => rfl, fun _ _ _ _ _ _ _ => ⟨rfl, rfl⟩⟩

/-- Claim C9: every single-row save of the store writer fills in a zero
timestamp with the current UTC wall-clock time just before the insert,
leaves a non-zero timestamp unchanged, and writes all other fields of
the row exactly as supplied. -/
theorem C9_save_row_frame (now : Nat) (s : StValidatorSnapshot)
    (d : StAttestationDuty) (r : StAttestationReward)
    (p : StValidatorPenalty) :
    saveValidatorSnapshotRow now s
      = { s with timestamp := if s.timestamp = 0 then now else s.timestamp }
    ∧ saveAttestationDutyRow now d
      = { d with timestamp := if d.timestamp = 0 then now else d.timestamp }
    ∧ saveAttestationRewardRow now r
      = { r with timestamp := if r.timestamp = 0 then now else r.timestamp }
    ∧ saveValidatorPenaltyRow now p
      = { p with timestamp := if p.timestamp = 0 then now else p.timestamp } := by
  refine ⟨?_, ?_, ?_, ?_⟩
  · unfold saveValidatorSnapshotRow
    by_cases h : s.timestamp = 0 <;> simp [h]
  · unfold saveAttestationDutyRow
    by_cases h : d.timestamp = 0 <;> simp [h]
  · unfold saveAttestationRewardRow
    by_cases h : r.timestamp = 0 <;> simp [h]
  · unfold saveValidatorPenaltyRow
    by_cases h : p.timestamp = 0 <;> simp [h]

/-- Evaluation of one terminal (non-retrying) loop iteration. -/
lemma doRequestLoop_terminal (att : Nat → Attempt) (i w r : Nat)
    (status : Nat) (body : String) (decodeOk : Bool)
    (hatt : att i = .response status body decodeOk)
    (hs : shouldRetry status = false) :
    doRequestLoop att i w r
      = (if status ≠ 200 then GoResult.httpError status body
         else if decodeOk then GoResult.ok else GoResult.decodeError,
         i + 1, w) := by
  cases r with
  | zero =>
    simp only [doRequestLoop, hatt, hs, Bool.false_eq_true, if_false]
    by_cases h200 : status = 200
    · subst h200
      cases decodeOk <;> simp
    · simp [h200]
  | succ r' =>
    simp only [doRequestLoop, hatt, hs, Bool.false_eq_true, if_false]
    by_cases h200 : status = 200
    · subst h200
      cases decodeOk <;> simp
    · simp [h200]

/-- Evaluation of one retrying loop iteration with retries left. -/
lemma doRequestLoop_retry (att : Nat → Attempt) (i w r : Nat)
    (hatt : retryableAttempt (att i) = true) :
    doRequestLoop att i w (r + 1) = doRequestLoop att (i + 1) (w + 1) r := by
  match h : att i with
  | .transport => simp [doRequestLoop, h]
  | .response status body decodeOk =>
    have hs : shouldRetry status = true := by
      rw [h] at hatt
      simpa [retryableAttempt] using hatt
    simp [doRequestLoop, h, hs]

/-- Evaluation of the last allowed attempt when it is retryable. -/
lemma doRequestLoop_exhausted (att : Nat → Attempt) (i w : Nat)
    (hatt : retryableAttempt (att i) = true) :
    doRequestLoop att i w 0
      = (match att i with
         | .transport => GoResult.transportFailed
         | .response status body _ => GoResult.retryableExhausted status body,
         i + 1, w) := by
  match h : att i with
  | .transport => simp [doRequestLoop, h]
  | .response status body decodeOk =>
    have hs : shouldRetry status = true := by
      rw [h] at hatt
      simpa [retryableAttempt] using hatt
    simp [doRequestLoop, h, hs]

lemma doRequestLoop_spec (att : Nat → Attempt) :
    ∀ (r i w : Nat),
      i < (doRequestLoop att i w r).2.1
      ∧ (doRequestLoop att i w r).2.1 ≤ i + r + 1
      ∧ (doRequestLoop att i w r).2.2
          = w + ((doRequestLoop att i w r).2.1 - i - 1)
      ∧ (∀ j, i ≤ j → j + 1 < (doRequestLoop att i w r).2.1 →
          retryableAttempt (att j) = true)
      ∧ (∀ status body decodeOk,
          att ((doRequestLoop att i w r).2.1 - 1)
            = .response status body decodeOk →
          shouldRetry status = false → status ≠ 200 →
          (doRequestLoop att i w r).1 = .httpError status body) := by
  intro r
  induction r with
  | zero =>
    intro i w
    by_cases hr : retryableAttempt (att i) = true
    · rw [doRequestLoop_exhausted att i w hr]
      refine ⟨Nat.lt_succ_self i, ?_, ?_, ?_, ?_⟩
      · show i + 1 ≤ i + 0 + 1
        omega
      · show w = w + (i + 1 - i - 1)
        omega
      · intro j h1 h2
        have h2' : j + 1 < i + 1 := h2
        omega
      · intro status body decodeOk heq hs _
        have heq' : att i = .response status body decodeOk := heq
        rw [heq'] at hr
        simp only [retryableAttempt] at hr
        rw [hs] at hr
        exact absurd hr (by decide)
    · match hatt : att i with
      | .transport =>
        rw [hatt] at hr
        simp [retryableAttempt] at hr
      | .response status body decodeOk =>
        have hs : shouldRetry status = false := by
          rw [hatt] at hr
          simpa [retryableAttempt] using hr
        rw [doRequestLoop_terminal att i w 0 status body decodeOk hatt hs]
        refine ⟨Nat.lt_succ_self i, ?_, ?_, ?_, ?_⟩
        · show i + 1 ≤ i + 0 + 1
          omega
        · show w = w + (i + 1 - i - 1)
          omega
        · intro j h1 h2
          have h2' : j + 1 < i + 1 := h2
          omega
        · intro status' body' d' heq hs' h200'
          have heq' : att i = .response status' body' d' := heq
          rw [hatt] at heq'
          cases heq'
          show (if status ≠ 200 then GoResult.httpError status body
                else if decodeOk then GoResult.ok else GoResult.decodeError)
            = GoResult.httpError status body
          rw [if_pos h200']
  | succ r' ih =>
    intro i w
    by_cases hr : retryableAttempt (att i) = true
    · rw [doRequestLoop_retry att i w r' hr]
      have h := ih (i + 1) (w + 1)
      obtain ⟨h1, h2, h3, h4, h5⟩ := h
      refine ⟨by omega, by omega, by omega, ?_, h5⟩
      intro j hj1 hj2
      by_cases hji : j = i
      · subst hji
        exact hr
      · exact h4 j (by omega) hj2
    · match hatt : att i with
      | .transport =>
        rw [hatt] at hr
        simp [retryableAttempt] at hr
      | .response status body decodeOk =>
        have hs : shouldRetry status = false := by
          rw [hatt] at hr
          simpa [retryableAttempt] using hr
        rw [doRequestLoop_terminal att i w (r' + 1) status body decodeOk
          hatt hs]
        refine ⟨Nat.lt_succ_self i, ?_, ?_, ?_, ?_⟩
        · show i + 1 ≤ i + (r' + 1) + 1
          omega
        · show w = w + (i + 1 - i - 1)
          omega
        · intro j h1 h2
          have h2' : j + 1 < i + 1 := h2
          omega
        · intro status' body' d' heq hs' h200'
          have heq' : att i = .response status' body' d' := heq
          rw [hatt] at heq'
          cases heq'
          show (if status ≠ 200 then GoResult.httpError status body
                else if decodeOk then GoResult.ok else GoResult.decodeError)
            = GoResult.httpError status body
          rw [if_pos h200']

/-- Completeness of the retry loop: the loop never stops early on a
retryable outcome (it only ends on a retryable attempt when the retry
budget is exhausted), a final transport error or retryable status is
reported as such, and a decodable 200 response succeeds. -/
lemma doRequestLoop_spec2 (att : Nat → Attempt) :
    ∀ (r i w : Nat),
      (retryableAttempt (att ((doRequestLoop att i w r).2.1 - 1)) = true →
        (doRequestLoop att i w r).2.1 = i + r + 1)
      ∧ (att ((doRequestLoop att i w r).2.1 - 1) = .transport →
          (doRequestLoop att i w r).1 = .transportFailed)
      ∧ (∀ status body decodeOk,
          att ((doRequestLoop att i w r).2.1 - 1)
            = .response status body decodeOk →
          shouldRetry status = true →
          (doRequestLoop att i w r).1 = .retryableExhausted status body)
      ∧ (∀ body (decodeOk : Bool),
          att ((doRequestLoop att i w r).2.1 - 1)
            = .response 200 body decodeOk →
          (doRequestLoop att i w r).1
            = (if decodeOk then GoResult.ok else GoResult.decodeError)) := by
  intro r
  induction r with
  | zero =>
    intro i w
    by_cases hr : retryableAttempt (att i) = true
    · rw [doRequestLoop_exhausted att i w hr]
      refine ⟨?_, ?_, ?_, ?_⟩
      · intro _
        show i + 1 = i + 0 + 1
        omega
      · intro h
        have h' : att i = .transport := h
        rw [h']
      · intro status body decodeOk h _
        have h' : att i = .response status body decodeOk := h
        rw [h']
      · intro body decodeOk h
        have h' : att i = .response 200 body decodeOk := h
        rw [h'] at hr
        simp only [retryableAttempt] at hr
        exact absurd hr (by decide)
    · match hatt : att i with
      | .transport =>
        rw [hatt] at hr
        simp [retryableAttempt] at hr
      | .response status body decodeOk =>
        have hs : shouldRetry status = false := by
          rw [hatt] at hr
          simpa [retryableAttempt] using hr
        rw [doRequestLoop_terminal att i w 0 status body decodeOk hatt hs]
        refine ⟨?_, ?_, ?_, ?_⟩
        · intro _
          show i + 1 = i + 0 + 1
          omega
        · intro h
          have h' : att i = .transport := h
          rw [hatt] at h'
          simp at h'
        · intro status' body' d' h hs'
          have h' : att i = .response status' body' d' := h
          rw [hatt] at h'
          cases h'
          rw [hs] at hs'
          exact absurd hs' (by decide)
        · intro body' d' h
          have h' : att i = .response 200 body' d' := h
          rw [hatt] at h'
          injection h' with h1 h2 h3
          subst h1
          subst h2
          subst h3
          show (if (200:Nat) ≠ 200 then GoResult.httpError 200 body
                else if decodeOk then GoResult.ok else GoResult.decodeError)
            = (if decodeOk then GoResult.ok else GoResult.decodeError)
          rw [if_neg (by omega)]
  | succ r' ih =>
    intro i w
    by_cases hr : retryableAttempt (att i) = true
    · rw [doRequestLoop_retry att i w r' hr]
      obtain ⟨g1, g2, g3, g4⟩ := ih (i + 1) (w + 1)
      refine ⟨?_, g2, g3, g4⟩
      intro h
      have := g1 h
      omega
    · match hatt : att i with
      | .transport =>
        rw [hatt] at hr
        simp [retryableAttempt] at hr
      | .response status body decodeOk =>
        have hs : shouldRetry status = false := by
          rw [hatt] at hr
          simpa [retryableAttempt] using hr
        rw [doRequestLoop_terminal att i w (r' + 1) status body decodeOk
          hatt hs]
        refine ⟨?_, ?_, ?_, ?_⟩
        · intro h
          have h' : retryableAttempt (att i) = true := h
          exact absurd h' hr
        · intro h
          have h' : att i = .transport := h
          rw [hatt] at h'
          simp at h'
        · intro status' body' d' h hs'
          have h' : att i = .response status' body' d' := h
          rw [hatt] at h'
          cases h'
          rw [hs] at hs'
          exact absurd hs' (by decide)
        · intro body' d' h
          have h' : att i = .response 200 body' d' := h
          rw [hatt] at h'
          injection h' with h1 h2 h3
          subst h1
          subst h2
          subst h3
          show (if (200:Nat) ≠ 200 then GoResult.httpError 200 body
                else if decodeOk then GoResult.ok else GoResult.decodeError)
            = (if decodeOk then GoResult.ok else GoResult.decodeError)
          rw [if_neg (by omega)]

lemma doRequestWithBodyGo_single (a : Attempt) :
    (doRequestWithBodyGo a).2.1 = 1 ∧ (doRequestWithBodyGo a).2.2 = 0 := by
  match a with
  | .transport => exact ⟨rfl, rfl⟩
  | .response status body decodeOk =>
    unfold doRequestWithBodyGo
    dsimp only
    by_cases h200 : status ≠ 200
    · rw [if_pos h200]
      exact ⟨rfl, rfl⟩
    · rw [if_neg h200]
      cases decodeOk <;> exact ⟨rfl, rfl⟩

/-- Counterexample to claim C2 as stated: the GET retry loop of
`doRequest` runs `attempt = 0 .. maxRetries` inclusive, so with
`maxRetries = 1` and a server that always answers 503 the client makes
2 attempts, not at most 1. -/
theorem C2_max_retries_counterexample :
    (doRequestGo 1 (fun _ => Attempt.response 503 "busy" true)).2.1 = 2
    ∧ ¬((doRequestGo 1 (fun _ => Attempt.response 503 "busy" true)).2.1 ≤ 1) := by
  exact ⟨by decide, by decide⟩

/-- Claim C2 (amended): for every GET request the client makes between
1 and `maxRetries + 1` attempts (the Go loop runs
`attempt = 0 .. maxRetries` inclusive); an attempt is followed by
another exactly when it ended in a transport-level error or an HTTP
status of 429 or 503 — every non-final attempt was retryable, the
loop never stops on a retryable attempt while retry budget remains,
and whenever every attempt up to `j < maxRetries` is retryable an
attempt `j + 1` is made — with one backoff wait per retry; if an
attempt returns any other non-200 status the call returns immediately
with an error recording the status and body; a final transport error
or retryable status is reported as such, and a decodable 200 response
succeeds; every POST request (`doRequestWithBody`) makes exactly one
attempt and never waits or retries, regardless of its outcome. -/
theorem C2_retry_policy (maxRetries : Nat) (att : Nat → Attempt) :
    (1 ≤ (doRequestGo maxRetries att).2.1
      ∧ (doRequestGo maxRetries att).2.1 ≤ maxRetries + 1)
    ∧ (∀ j, j + 1 < (doRequestGo maxRetries att).2.1 →
        retryableAttempt (att j) = true)
    ∧ (doRequestGo maxRetries att).2.2 = (doRequestGo maxRetries att).2.1 - 1
    ∧ (∀ status body decodeOk,
        att ((doRequestGo maxRetries att).2.1 - 1)
          = .response status body decodeOk →
        shouldRetry status = false → status ≠ 200 →
        (doRequestGo maxRetries att).1 = .httpError status body)
    ∧ (retryableAttempt (att ((doRequestGo maxRetries att).2.1 - 1)) = true →
        (doRequestGo maxRetries att).2.1 = maxRetries + 1)
    ∧ (∀ j, j < maxRetries →
        (∀ k, k ≤ j → retryableAttempt (att k) = true) →
        j + 1 < (doRequestGo maxRetries att).2.1)
    ∧ (att ((doRequestGo maxRetries att).2.1 - 1) = .transport →
        (doRequestGo maxRetries att).1 = .transportFailed)
    ∧ (∀ status body decodeOk,
        att ((doRequestGo maxRetries att).2.1 - 1)
          = .response status body decodeOk →
        shouldRetry status = true →
        (doRequestGo maxRetries att).1 = .retryableExhausted status body)
    ∧ (∀ body (decodeOk : Bool),
        att ((doRequestGo maxRetries att).2.1 - 1)
          = .response 200 body decodeOk →
        (doRequestGo maxRetries att).1
          = (if decodeOk then GoResult.ok else GoResult.decodeError))
    ∧ (∀ a : Attempt, (doRequestWithBodyGo a).2.1 = 1
        ∧ (doRequestWithBodyGo a).2.2 = 0) := by
  obtain ⟨h1, h2, h3, h4, h5⟩ := doRequestLoop_spec att maxRetries 0 0
  obtain ⟨g1, g2, g3, g4⟩ := doRequestLoop_spec2 att maxRetries 0 0
  unfold doRequestGo
  refine ⟨⟨by omega, by omega⟩,
    fun j hj => h4 j (Nat.zero_le j) hj,
    by omega, h5,
    fun h => by have := g1 h; omega,
    ?_, g2, g3, g4, doRequestWithBodyGo_single⟩
  intro j hj hall
  by_contra hle
  push_neg at hle
  have hfin := hall ((doRequestLoop att 0 0 maxRetries).2.1 - 1) (by omega)
  have := g1 hfin
  omega

/-- Witness for C2 (amended): a GET answered 404 on the first attempt
fails immediately, after exactly one attempt and no backoff wait, with
an error recording the status and body; a GET answered 503, 503, 200
makes a third attempt after the two retryable answers and succeeds on
it; a POST answered 503 makes exactly one attempt. -/
theorem C2_retry_policy_witness :
    ((doRequestGo 2 (fun _ => Attempt.response 404 "nf" true)).2.1 = 1
      ∧ (doRequestGo 2 (fun _ => Attempt.response 404 "nf" true)).1
          = GoResult.httpError 404 "nf")
    ∧ ((1:Nat) < 3
      ∧ (∀ k, k ≤ 1 → retryableAttempt
          ((fun n => if n < 2 then Attempt.response 503 "busy" true
                     else Attempt.response 200 "ok" true) k) = true)
      ∧ 1 + 1 < (doRequestGo 3
          (fun n => if n < 2 then Attempt.response 503 "busy" true
                    else Attempt.response 200 "ok" true)).2.1
      ∧ (doRequestGo 3
          (fun n => if n < 2 then Attempt.response 503 "busy" true
                    else Attempt.response 200 "ok" true)).2.1 = 3
      ∧ (doRequestGo 3
          (fun n => if n < 2 then Attempt.response 503 "busy" true
                    else Attempt.response 200 "ok" true)).1 = GoResult.ok)
    ∧ (doRequestWithBodyGo (Attempt.response 503 "busy" true)).2.1 = 1 := by
  have h := C2_retry_policy 2 (fun _ => Attempt.response 404 "nf" true)
  have h5 := C2_retry_policy 3
    (fun n => if n < 2 then Attempt.response 503 "busy" true
              else Attempt.response 200 "ok" true)
  refine ⟨⟨by decide,
      h.2.2.2.1 404 "nf" true (by decide) (by decide) (by decide)⟩,
    ⟨by decide, by decide,
      h5.2.2.2.2.2.1 1 (by decide) (by decide),
      by decide,
      h5.2.2.2.2.2.2.2.2.1 "ok" true (by decide)⟩,
    (h.2.2.2.2.2.2.2.2.2 (Attempt.response 503 "busy" true)).1⟩

/-- Claim C5: the backoff call at attempt 0 deterministically returns
the initial delay (no jitter); every call at attempt `n ≥ 1` returns
`initialDelay * multiplier ^ n` multiplied by some factor in
`[1 - f, 1 + f]` and clamped so it never exceeds `maxDelay`; each call
advances the attempt counter and `reset` returns the generator to
attempt 0 (so the next call again returns the initial delay). -/
theorem C5_backoff_jitter_clamp :
    (∀ (cfg : BackoffConfig) (u : ℚ),
      (Backoff.nextDelay ⟨cfg, 0⟩ u).1 = cfg.initialDelay)
    ∧ (∀ (cfg : BackoffConfig) (n : Nat) (u : ℚ), 1 ≤ n → 0 ≤ u → u < 1 →
        0 ≤ cfg.jitterFactor →
        ∃ factor, 1 - cfg.jitterFactor ≤ factor
          ∧ factor ≤ 1 + cfg.jitterFactor
          ∧ (Backoff.nextDelay ⟨cfg, n⟩ u).1
              = min (cfg.initialDelay * cfg.multiplier ^ n * factor)
                  cfg.maxDelay
          ∧ (Backoff.nextDelay ⟨cfg, n⟩ u).1 ≤ cfg.maxDelay)
    ∧ (∀ (b : Backoff) (u : ℚ),
        ((Backoff.nextDelay b u).2).attempts = b.attempts + 1)
    ∧ (∀ b : Backoff, b.reset.attempts = 0
        ∧ ∀ u : ℚ, (Backoff.nextDelay b.reset u).1 = b.cfg.initialDelay) := by
  refine ⟨fun cfg u => rfl, ?_, ?_, ?_⟩
  · intro cfg n u hn hu0 hu1 hf
    unfold Backoff.nextDelay
    dsimp only
    rw [if_neg (by omega : ¬n = 0)]
    refine ⟨1 + (u * 2 - 1) * cfg.jitterFactor, ?_, ?_, ?_, ?_⟩
    · nlinarith
    · nlinarith
    · dsimp only
      by_cases hgt : cfg.initialDelay * cfg.multiplier ^ n
          * (1 + (u * 2 - 1) * cfg.jitterFactor) > cfg.maxDelay
      · rw [if_pos hgt, min_eq_right (le_of_lt hgt)]
      · rw [if_neg hgt, min_eq_left (not_lt.mp hgt)]
    · dsimp only
      by_cases hgt : cfg.initialDelay * cfg.multiplier ^ n
          * (1 + (u * 2 - 1) * cfg.jitterFactor) > cfg.maxDelay
      · rw [if_pos hgt]
      · rw [if_neg hgt]
        exact not_lt.mp hgt
  · intro b u
    unfold Backoff.nextDelay
    by_cases h : b.attempts = 0
    · rw [if_pos h]
    · rw [if_neg h]
  · intro b
    refine ⟨rfl, fun u => ?_⟩
    unfold Backoff.nextDelay Backoff.reset
    rw [if_pos rfl]

/-- Witness for C5: with `initialDelay = 100`, `maxDelay = 30000`,
`multiplier = 2`, `jitterFactor = 1/5`, the call at attempt 0 returns
100 and the call at attempt 1 with jitter sample `u = 1/2` returns a
jittered multiple of 200 clamped at 30000. -/
theorem C5_backoff_jitter_clamp_witness :
    ((1:Nat) ≤ 1 ∧ (0:ℚ) ≤ 1/2 ∧ (1/2:ℚ) < 1 ∧ (0:ℚ) ≤ 1/5)
    ∧ (Backoff.nextDelay ⟨⟨100, 30000, 2, 1/5⟩, 0⟩ (1/2)).1 = 100
    ∧ ∃ factor, 1 - (1/5:ℚ) ≤ factor ∧ factor ≤ 1 + (1/5:ℚ)
        ∧ (Backoff.nextDelay ⟨⟨100, 30000, 2, 1/5⟩, 1⟩ (1/2)).1
            = min (100 * 2 ^ 1 * factor) 30000
        ∧ (Backoff.nextDelay ⟨⟨100, 30000, 2, 1/5⟩, 1⟩ (1/2)).1 ≤ 30000 := by
  refine ⟨⟨le_refl 1, by norm_num, by norm_num, by norm_num⟩, ?_, ?_⟩
  · exact C5_backoff_jitter_clamp.1 ⟨100, 30000, 2, 1/5⟩ (1/2)
  · exact C5_backoff_jitter_clamp.2.1 ⟨100, 30000, 2, 1/5⟩ 1 (1/2)
      (le_refl 1) (by norm_num) (by norm_num) (by norm_num)

lemma digitVal_digit (d : Nat) (hd : d < 10) :
    digitVal (Char.ofNat (48 + d)) = some d := by
  interval_cases d <;> decide

lemma charDigit_ne_dquote (d : Nat) (hd : d < 10) :
    Char.ofNat (48 + d) ≠ dquote := by
  interval_cases d <;> decide

lemma charDigit_ne_plus (d : Nat) (hd : d < 10) :
    Char.ofNat (48 + d) ≠ Char.ofNat 43 := by
  interval_cases d <;> decide

lemma charDigit_ne_minus (d : Nat) (hd : d < 10) :
    Char.ofNat (48 + d) ≠ Char.ofNat 45 := by
  interval_cases d <;> decide

lemma natCharsAux_head : ∀ (fuel n : Nat) (acc : List Char), 0 < fuel →
    ∃ d cs, d < 10 ∧ natCharsAux fuel n acc = Char.ofNat (48 + d) :: cs := by
  intro fuel
  induction fuel with
  | zero => intro n acc h; omega
  | succ f ih =>
    intro n acc _
    by_cases hn : n < 10
    · exact ⟨n % 10, acc, by omega, by simp [natCharsAux, hn]⟩
    · cases f with
      | zero =>
        exact ⟨n % 10, acc, by omega, by simp [natCharsAux, hn]⟩
      | succ f' =>
        obtain ⟨d, cs, hd, heq⟩ :=
          ih (n / 10) (Char.ofNat (48 + n % 10) :: acc) (by omega)
        exact ⟨d, cs, hd, by simp only [natCharsAux, if_neg hn]; exact heq⟩

lemma natChars_head (n : Nat) :
    ∃ d cs, d < 10 ∧ natChars n = Char.ofNat (48 + d) :: cs :=
  natCharsAux_head (n + 1) n [] (Nat.succ_pos n)

lemma natCharsAux_parse : ∀ (fuel n : Nat) (acc : List Char), n < fuel →
    ∃ k, 0 < k ∧ n < 10 ^ k
      ∧ ∀ a, parseDigitsAux (natCharsAux fuel n acc) a
          = parseDigitsAux acc (a * 10 ^ k + n) := by
  intro fuel
  induction fuel with
  | zero => intro n acc h; omega
  | succ f ih =>
    intro n acc hn
    by_cases h10 : n < 10
    · refine ⟨1, by omega, by omega, ?_⟩
      intro a
      have hmod : n % 10 = n := Nat.mod_eq_of_lt h10
      simp only [natCharsAux, if_pos h10, parseDigitsAux, hmod,
        digitVal_digit n h10, pow_one]
    · have hrec : n / 10 < f := by omega
      obtain ⟨k, hk, hlt, hparse⟩ :=
        ih (n / 10) (Char.ofNat (48 + n % 10) :: acc) hrec
      refine ⟨k + 1, by omega, ?_, ?_⟩
      · have hp : 10 ^ (k + 1) = 10 ^ k * 10 := pow_succ 10 k
        omega
      · intro a
        rw [show natCharsAux (f + 1) n acc
            = natCharsAux f (n / 10) (Char.ofNat (48 + n % 10) :: acc) by
          simp [natCharsAux, h10]]
        rw [hparse a]
        simp only [parseDigitsAux, digitVal_digit (n % 10) (by omega)]
        congr 1
        have hsplit : n / 10 * 10 + n % 10 = n := by omega
        calc (a * 10 ^ k + n / 10) * 10 + n % 10
            = a * (10 ^ k * 10) + (n / 10 * 10 + n % 10) := by ring
          _ = a * 10 ^ (k + 1) + n := by rw [hsplit, pow_succ]

lemma parseDigitsAux_natChars (n : Nat) :
    parseDigitsAux (natChars n) 0 = some n := by
  obtain ⟨k, _, _, hparse⟩ := natCharsAux_parse (n + 1) n [] (by omega)
  rw [natChars, hparse 0]
  simp [parseDigitsAux]

lemma natChars_ne_nil (n : Nat) : natChars n ≠ [] := by
  obtain ⟨d, cs, _, heq⟩ := natChars_head n
  rw [heq]
  exact List.cons_ne_nil _ _

lemma parseUint64_natChars {n : Nat} (hn : n < 2 ^ 64) :
    parseUint64 (natChars n) = some n := by
  unfold parseUint64
  rw [if_neg (by simpa [List.isEmpty_iff] using natChars_ne_nil n)]
  rw [parseDigitsAux_natChars n]
  exact if_pos hn

lemma stripQuotes_natChars (n : Nat) :
    stripQuotes (natChars n) = natChars n := by
  obtain ⟨d, cs, hd, heq⟩ := natChars_head n
  unfold stripQuotes
  rw [if_neg]
  rintro ⟨_, h2, _⟩
  rw [heq] at h2
  simp only [List.head?_cons, Option.some_inj] at h2
  exact charDigit_ne_dquote d hd h2

lemma stripQuotes_quoteWrap (s : List Char) :
    stripQuotes (quoteWrap s) = s := by
  unfold stripQuotes quoteWrap
  rw [if_pos]
  · simp
  · refine ⟨by simp, rfl, ?_⟩
    rw [show dquote :: (s ++ [dquote]) = (dquote :: s) ++ [dquote] by simp]
    exact List.getLast?_concat _

lemma stripQuotes_cases (s : List Char) :
    stripQuotes s = s ∨ ∃ t, s = quoteWrap t ∧ stripQuotes s = t := by
  by_cases h : 2 ≤ s.length ∧ s.head? = some dquote ∧ s.getLast? = some dquote
  · right
    obtain ⟨hlen, hhead, hlast⟩ := h
    cases s with
    | nil => cases hhead
    | cons c s' =>
      have hc : c = dquote := by simpa using hhead
      rcases List.eq_nil_or_concat' s' with rfl | ⟨mid, d, rfl⟩
      · simp at hlen
      · have hd : d = dquote := by
          have hgl : (c :: (mid ++ [d])).getLast? = some d := by
            rw [show c :: (mid ++ [d]) = (c :: mid) ++ [d] by simp]
            exact List.getLast?_concat _
          rw [hgl] at hlast
          exact Option.some_inj.mp hlast
        subst hc
        subst hd
        refine ⟨mid, rfl, ?_⟩
        unfold stripQuotes
        rw [if_pos ⟨hlen, hhead, hlast⟩]
        simp
  · left
    unfold stripQuotes
    rw [if_neg h]

lemma parseDigitsAux_digits : ∀ (s : List Char) (acc v : Nat),
    parseDigitsAux s acc = some v → ∀ c ∈ s, (digitVal c).isSome = true := by
  intro s
  induction s with
  | nil => intro acc v _ c hc; cases hc
  | cons c cs ih =>
    intro acc v hp c' hc'
    unfold parseDigitsAux at hp
    cases hd : digitVal c with
    | none => rw [hd] at hp; cases hp
    | some d =>
      rw [hd] at hp
      rcases List.mem_cons.mp hc' with rfl | hmem
      · rw [hd]; rfl
      · exact ih _ v hp c' hmem

lemma uint64StrUnmarshal_natChars {n : Nat} (hn : n < 2 ^ 64) :
    uint64StrUnmarshal (natChars n) = some n := by
  unfold uint64StrUnmarshal
  rw [stripQuotes_natChars n]
  exact parseUint64_natChars hn

lemma uint64StrUnmarshal_quoted {n : Nat} (hn : n < 2 ^ 64) :
    uint64StrUnmarshal (quoteWrap (natChars n)) = some n := by
  unfold uint64StrUnmarshal
  rw [stripQuotes_quoteWrap]
  exact parseUint64_natChars hn

lemma parseInt64Core_natChars_neg {m : Nat} (hm : m ≤ 2 ^ 63) :
    parseInt64Core true (natChars m) = some (-(m : Int)) := by
  unfold parseInt64Core
  rw [if_neg (by simpa [List.isEmpty_iff] using natChars_ne_nil m)]
  rw [parseDigitsAux_natChars]
  dsimp only
  rw [if_neg (by omega)]
  rw [if_neg (by rintro ⟨h, _⟩; cases h)]
  rw [if_neg (by rintro ⟨_, h⟩; omega)]
  rw [if_pos rfl]

lemma parseInt64Core_natChars_pos {m : Nat} (hm : m < 2 ^ 63) :
    parseInt64Core false (natChars m) = some (m : Int) := by
  unfold parseInt64Core
  rw [if_neg (by simpa [List.isEmpty_iff] using natChars_ne_nil m)]
  rw [parseDigitsAux_natChars]
  dsimp only
  rw [if_neg (by omega)]
  rw [if_neg (by rintro ⟨_, h⟩; omega)]
  rw [if_neg (by rintro ⟨h, _⟩; cases h)]
  rw [if_neg (by intro h; cases h)]

lemma parseInt64_intChars {i : Int} (h1 : -(2 ^ 63) ≤ i)
    (h2 : i < 2 ^ 63) : parseInt64 (intChars i) = some i := by
  by_cases hneg : i < 0
  · have hchars : intChars i = Char.ofNat 45 :: natChars i.natAbs := by
      unfold intChars
      rw [if_pos hneg]
    rw [hchars]
    unfold parseInt64
    dsimp only
    rw [if_neg (by decide), if_pos rfl]
    rw [parseInt64Core_natChars_neg (by omega)]
    congr 1
    omega
  · have hchars : intChars i = natChars i.toNat := by
      unfold intChars
      rw [if_neg hneg]
    obtain ⟨d, cs, hd, heq⟩ := natChars_head i.toNat
    rw [hchars, heq]
    unfold parseInt64
    dsimp only
    rw [if_neg (charDigit_ne_plus d hd), if_neg (charDigit_ne_minus d hd)]
    rw [← heq, parseInt64Core_natChars_pos (by omega)]
    congr 1
    omega

lemma stripQuotes_intChars (i : Int) :
    stripQuotes (intChars i) = intChars i := by
  unfold intChars
  by_cases hneg : i < 0
  · rw [if_pos hneg]
    unfold stripQuotes
    rw [if_neg]
    rintro ⟨_, h2, _⟩
    simp only [List.head?_cons, Option.some_inj] at h2
    exact absurd h2 (by decide)
  · rw [if_neg hneg]
    exact stripQuotes_natChars _

/-- Claim C6: the JSON decoders accept both the quoted and the
unquoted encoding of the same 64-bit integer and produce the same
value: for every `n < 2^64` the `Uint64Str` decoder maps both the
decimal token of `n` and its double-quoted form to `n`, and for every
`int64` value `i` the `Int64Str` decoder maps both the (possibly
sign-prefixed) decimal token of `i` and its double-quoted form to
`i`. -/
theorem C6_decoder_accepts_quoted_and_unquoted :
    (∀ n : Nat, n < 2 ^ 64 →
      uint64StrUnmarshal (natChars n) = some n
      ∧ uint64StrUnmarshal (quoteWrap (natChars n)) = some n)
    ∧ (∀ i : Int, -(2 ^ 63) ≤ i → i < 2 ^ 63 →
      int64StrUnmarshal (intChars i) = some i
      ∧ int64StrUnmarshal (quoteWrap (intChars i)) = some i) := by
  refine ⟨fun n hn =>
    ⟨uint64StrUnmarshal_natChars hn, uint64StrUnmarshal_quoted hn⟩, ?_⟩
  intro i h1 h2
  constructor
  · unfold int64StrUnmarshal
    rw [stripQuotes_intChars]
    exact parseInt64_intChars h1 h2
  · unfold int64StrUnmarshal
    rw [stripQuotes_quoteWrap]
    exact parseInt64_intChars h1 h2

/-- Witness for C6: the tokens `123` and `"123"` both decode to 123,
and the tokens `-5` and `"-5"` both decode to -5. -/
theorem C6_decoder_witness :
    natChars 123 = [Char.ofNat 49, Char.ofNat 50, Char.ofNat 51]
    ∧ ((123:Nat) < 2 ^ 64
      ∧ uint64StrUnmarshal (natChars 123) = some 123
      ∧ uint64StrUnmarshal (quoteWrap (natChars 123)) = some 123)
    ∧ (-(2 ^ 63) ≤ (-5 : Int) ∧ (-5 : Int) < 2 ^ 63
      ∧ int64StrUnmarshal (intChars (-5)) = some (-5)
      ∧ int64StrUnmarshal (quoteWrap (intChars (-5))) = some (-5)) := by
  have h1 := C6_decoder_accepts_quoted_and_unquoted.1 123 (by decide)
  have h2 := C6_decoder_accepts_quoted_and_unquoted.2 (-5)
    (by decide) (by decide)
  exact ⟨by decide, ⟨by decide, h1.1, h1.2⟩,
    ⟨by decide, by decide, h2.1, h2.2⟩⟩

lemma parseInt64Core_sound (neg : Bool) (digits : List Char) (v : Int)
    (h : parseInt64Core neg digits = some v) :
    isDigits digits ∧ -(2 ^ 63) ≤ v ∧ v < 2 ^ 63 := by
  unfold parseInt64Core at h
  by_cases he : digits.isEmpty
  · rw [if_pos he] at h
    cases h
  · rw [if_neg he] at h
    cases hp : parseDigitsAux digits 0 with
    | none =>
      rw [hp] at h
      cases h
    | some un =>
      rw [hp] at h
      dsimp only at h
      by_cases h64 : 2 ^ 64 ≤ un
      · rw [if_pos h64] at h
        cases h
      · rw [if_neg h64] at h
        refine ⟨⟨by simpa [List.isEmpty_iff] using he,
          parseDigitsAux_digits _ _ _ hp⟩, ?_⟩
        cases neg with
        | false =>
          by_cases h63 : 2 ^ 63 ≤ un
          · rw [if_pos ⟨rfl, h63⟩] at h
            cases h
          · rw [if_neg (fun hh => h63 hh.2)] at h
            rw [if_neg (fun hh => by cases hh.1)] at h
            rw [if_neg (fun hh => by cases hh)] at h
            injection h with h
            subst h
            constructor <;> omega
        | true =>
          by_cases h63 : 2 ^ 63 < un
          · rw [if_neg (fun hh => by cases hh.1)] at h
            rw [if_pos ⟨rfl, h63⟩] at h
            cases h
          · rw [if_neg (fun hh => by cases hh.1)] at h
            rw [if_neg (fun hh => h63 hh.2)] at h
            rw [if_pos rfl] at h
            injection h with h
            subst h
            constructor <;> omega

lemma int64StrUnmarshal_sound (s : List Char) (v : Int)
    (h : int64StrUnmarshal s = some v) :
    (-(2 ^ 63) ≤ v ∧ v < 2 ^ 63)
    ∧ (isIntToken s ∨ ∃ t, s = quoteWrap t ∧ isIntToken t) := by
  unfold int64StrUnmarshal at h
  have main : isIntToken (stripQuotes s) ∧ -(2 ^ 63) ≤ v ∧ v < 2 ^ 63 := by
    cases hsq : stripQuotes s with
    | nil =>
      rw [hsq] at h
      simp [parseInt64] at h
    | cons c rest =>
      rw [hsq] at h
      unfold parseInt64 at h
      dsimp only at h
      by_cases h43 : c = Char.ofNat 43
      · rw [if_pos h43] at h
        obtain ⟨hd, hv⟩ := parseInt64Core_sound false rest v h
        exact ⟨Or.inr ⟨rest, Or.inl (by rw [h43]), hd⟩, hv⟩
      · rw [if_neg h43] at h
        by_cases h45 : c = Char.ofNat 45
        · rw [if_pos h45] at h
          obtain ⟨hd, hv⟩ := parseInt64Core_sound true rest v h
          exact ⟨Or.inr ⟨rest, Or.inr (by rw [h45]), hd⟩, hv⟩
        · rw [if_neg h45] at h
          obtain ⟨hd, hv⟩ := parseInt64Core_sound false (c :: rest) v h
          exact ⟨Or.inl hd, hv⟩
  refine ⟨main.2, ?_⟩
  rcases stripQuotes_cases s with hc | ⟨t, ht, hts⟩
  · left
    rw [hc] at main
    exact main.1
  · right
    refine ⟨t, ht, ?_⟩
    rw [hts] at main
    exact main.1

/-- Claim C10: every accepted input of the `Uint64Str` decoder is an
optionally double-quoted base-10 digit string whose value fits in 64
bits, and every accepted input of the `Int64Str` decoder is an
optionally double-quoted, optionally sign-prefixed base-10 digit
string whose value fits in a signed 64-bit integer; in particular `-5`
and `"-5"` and the out-of-range tokens `2^64` (for `Uint64Str`) and
`2^63` (for `Int64Str`) are rejected with an error, and a 200 response
whose body fails to decode makes the enclosing request (GET or POST)
return an error. -/
theorem C10_decoder_rejects_malformed :
    (∀ (s : List Char) (v : Nat), uint64StrUnmarshal s = some v →
      v < 2 ^ 64 ∧ (isDigits s ∨ ∃ t, s = quoteWrap t ∧ isDigits t))
    ∧ (∀ (s : List Char) (v : Int), int64StrUnmarshal s = some v →
      (-(2 ^ 63) ≤ v ∧ v < 2 ^ 63)
      ∧ (isIntToken s ∨ ∃ t, s = quoteWrap t ∧ isIntToken t))
    ∧ uint64StrUnmarshal [Char.ofNat 45, Char.ofNat 53] = none
    ∧ uint64StrUnmarshal (quoteWrap [Char.ofNat 45, Char.ofNat 53]) = none
    ∧ uint64StrUnmarshal
        ([1,8,4,4,6,7,4,4,0,7,3,7,0,9,5,5,1,6,1,6].map
          (fun d => Char.ofNat (48 + d))) = none
    ∧ int64StrUnmarshal
        ([9,2,2,3,3,7,2,0,3,6,8,5,4,7,7,5,8,0,8].map
          (fun d => Char.ofNat (48 + d))) = none
    ∧ (∀ (att : Nat → Attempt) (i w r : Nat) (body : String),
        att i = Attempt.response 200 body false →
        (doRequestLoop att i w r).1 = GoResult.decodeError)
    ∧ (∀ body : String,
        (doRequestWithBodyGo (Attempt.response 200 body false)).1
          = GoResult.decodeError) := by
  refine ⟨?_, int64StrUnmarshal_sound, by decide, by decide, by decide,
    by decide, ?_, fun _ => rfl⟩
  · intro s v h
    unfold uint64StrUnmarshal parseUint64 at h
    by_cases he : (stripQuotes s).isEmpty
    · rw [if_pos he] at h
      cases h
    · rw [if_neg he] at h
      cases hp : parseDigitsAux (stripQuotes s) 0 with
      | none =>
        rw [hp] at h
        cases h
      | some v' =>
        rw [hp] at h
        dsimp only at h
        by_cases hv : v' < 2 ^ 64
        · rw [if_pos hv] at h
          injection h with h
          subst h
          refine ⟨hv, ?_⟩
          have hdig : isDigits (stripQuotes s) :=
            ⟨by simpa [List.isEmpty_iff] using he,
             parseDigitsAux_digits _ _ _ hp⟩
          rcases stripQuotes_cases s with hc | ⟨t, ht, hts⟩
          · left
            rw [hc] at hdig
            exact hdig
          · right
            exact ⟨t, ht, hts ▸ hdig⟩
        · rw [if_neg hv] at h
          cases h
  · intro att i w r body hatt
    rw [doRequestLoop_terminal att i w r 200 body false hatt (by decide)]
    rfl

/-- Witness for C10: the quoted token `"77"` is accepted by `Uint64Str`
(decoding to 77) and the token `-5` is accepted by `Int64Str`
(decoding to -5), so the soundness directions apply to them; a
200-status attempt whose body does not decode yields a decode error on
a GET. -/
theorem C10_decoder_rejects_malformed_witness :
    uint64StrUnmarshal (quoteWrap [Char.ofNat 55, Char.ofNat 55]) = some 77
    ∧ ((77:Nat) < 2 ^ 64
        ∧ (isDigits (quoteWrap [Char.ofNat 55, Char.ofNat 55])
            ∨ ∃ t, quoteWrap [Char.ofNat 55, Char.ofNat 55] = quoteWrap t
                ∧ isDigits t))
    ∧ int64StrUnmarshal [Char.ofNat 45, Char.ofNat 53] = some (-5)
    ∧ ((-(2 ^ 63) ≤ (-5 : Int) ∧ (-5 : Int) < 2 ^ 63)
        ∧ (isIntToken [Char.ofNat 45, Char.ofNat 53]
            ∨ ∃ t, [Char.ofNat 45, Char.ofNat 53] = quoteWrap t
                ∧ isIntToken t))
    ∧ (doRequestLoop (fun _ => Attempt.response 200 "garbage" false)
        0 0 3).1 = GoResult.decodeError := by
  have h := C10_decoder_rejects_malformed
  exact ⟨by decide, h.1 _ 77 (by decide),
    by decide, h.2.1 _ (-5) (by decide),
    h.2.2.2.2.2.2.1 _ 0 0 3 "garbage" rfl⟩

end Pauli
